import Mathlib

/-!
Verification of the prior-segment projection-and-delta engine of the
pytrendline cursor-delta overlay.

The embedded code lives in two files of the repository:

* `src/pytrendline/bokeh_cursor_deltas.py` — `plot_with_prev_deltas`
  compiles raw trendline records into per-category column sources
  (slope `m`, intercept `b`, selection key `x_end`), and its CustomJS
  callback defines `prevY` (linear scan for the segment with the
  greatest `x_end <= x`) and `pct` (signed-percentage formatting).
* `src/cursor_delta_addon.py` — `_mk_src` performs the same compilation
  from tuples, and its CustomJS callback defines `yPrevAtDate` and
  `pctDelta` (identical to `prevY` / `pct` except that `pctDelta`
  prepends `+` for `p >= 0` where `pct` does so only for `p > 0`).

Modelling conventions: JavaScript / Python numbers are modelled as exact
rationals (`ℚ`); millisecond timestamps (the result of
`pd.to_datetime(ts).value // 10**6`) as integers (`ℤ`).  JavaScript's
special values are modelled by `JSNum` (finite, ±Infinity, NaN) where the
code tests `isFinite`.  `Number.prototype.toFixed(2)` is modelled on
rationals following the ECMAScript algorithm: take the sign apart, pick
the integer `n` closest to `100 * x` (larger `n` on ties) and print
`n / 100` with exactly two decimals.
-/

namespace PyTrendline

/-- A raw trendline record, one element of the `trendlines` argument of
`plot_with_prev_deltas` (equivalently one tuple given to `_mk_src`), after
the external timestamp conversion `_to_ms` has produced the two integer
millisecond values: anchors `(x0ms, y0)` and `(x1ms, y1)`. -/
structure RawSeg where
  x0ms : ℤ
  y0 : ℚ
  x1ms : ℤ
  y1 : ℚ
deriving DecidableEq

/-- One record of the compiled column source built by the loop in
`plot_with_prev_deltas` (lines 41–59) and by `_mk_src` (lines 9–20):
the two anchors in millisecond space, slope `m`, intercept `b`, and the
selection key `x_end = max(x0ms, x1ms)`. -/
structure CompiledSeg where
  x0ms : ℤ
  y0 : ℚ
  x1ms : ℤ
  y1 : ℚ
  m : ℚ
  b : ℚ
  xEnd : ℤ
deriving DecidableEq

/-- The body of the compilation loop for a single record
(`plot_with_prev_deltas` lines 42–58, `_mk_src` lines 10–20):
skip the record when both anchors land on the same millisecond
(`if x1ms == x0ms: continue`), otherwise emit slope
`m = (y1 - y0) / (x1ms - x0ms)`, intercept `b = y0 - m * x0ms` and key
`x_end = max(x0ms, x1ms)`. -/
def compileSeg (r : RawSeg) : Option CompiledSeg :=
  if r.x1ms = r.x0ms then none
  else
    let m : ℚ := (r.y1 - r.y0) / ((r.x1ms : ℚ) - (r.x0ms : ℚ))
    let b : ℚ := r.y0 - m * (r.x0ms : ℚ)
    some ⟨r.x0ms, r.y0, r.x1ms, r.y1, m, b, max r.x0ms r.x1ms⟩

/-- The whole compilation loop over one category's records: the retained
compiled records in input order (`res_lines` / `sup_lines` in
`plot_with_prev_deltas`, the column lists in `_mk_src`). -/
def mkSrc (recs : List RawSeg) : List CompiledSeg :=
  recs.filterMap compileSeg

/-- The JS loop guard `x >= x_end && x_end > best` of `prevY` /
`yPrevAtDate`, where `best` is `-Infinity` before the first hit
(modelled as `none`). -/
def beatsB (x : ℚ) (best : Option ℤ) (e : ℤ) : Bool :=
  decide ((e : ℚ) ≤ x) && (match best with | none => true | some b0 => decide (b0 < e))

/-- One iteration of the `prevY` / `yPrevAtDate` loop: the pair carries the
JS locals `(best, yAt)`; `none` stands for the initial state
`best = -Infinity, yAt = null` (they are always updated together). -/
def prevYStep (x : ℚ) (acc : Option (ℤ × ℚ)) (s : CompiledSeg) : Option (ℤ × ℚ) :=
  if beatsB x (acc.map Prod.fst) s.xEnd then some (s.xEnd, s.m * x + s.b) else acc

/-- `prevY(src)` from the CustomJS callback of `plot_with_prev_deltas`
(lines 103–114): scan all compiled records, remember the greatest
`x_end` with `x >= x_end`, and return `m * x + b` of that record
(`null`, i.e. `none`, when no record qualifies). -/
def prevY (src : List CompiledSeg) (x : ℚ) : Option ℚ :=
  (src.foldl (prevYStep x) none).map Prod.snd

/-- `yPrevAtDate(src, dateMs)` from the CustomJS callback of
`attach_cursor_panel` in `src/cursor_delta_addon.py` (lines 61–72); its
loop body is identical to `prevY`'s. -/
def yPrevAtDate (src : List CompiledSeg) (dateMs : ℚ) : Option ℚ :=
  (src.foldl (prevYStep dateMs) none).map Prod.snd

/-- A JavaScript number as used by the delta formatters: a finite value
(exact rational), one of the two infinities, or NaN. -/
inductive JSNum where
  | fin (q : ℚ)
  | posInf
  | negInf
  | nan
deriving DecidableEq

/-- JavaScript's `isFinite`. -/
def jsFinite : JSNum → Bool
  | .fin _ => true
  | _ => false

/-- JavaScript subtraction on `JSNum` (exact on finite values). -/
def jsSub : JSNum → JSNum → JSNum
  | .nan, _ => .nan
  | _, .nan => .nan
  | .fin a, .fin b => .fin (a - b)
  | .fin _, .posInf => .negInf
  | .fin _, .negInf => .posInf
  | .posInf, .fin _ => .posInf
  | .posInf, .negInf => .posInf
  | .posInf, .posInf => .nan
  | .negInf, .fin _ => .negInf
  | .negInf, .posInf => .negInf
  | .negInf, .negInf => .nan

/-- JavaScript division on `JSNum` (exact on finite values; the model has
no signed zero, so a zero denominator with a positive numerator gives
`+Infinity`). -/
def jsDiv : JSNum → JSNum → JSNum
  | .nan, _ => .nan
  | _, .nan => .nan
  | .fin a, .fin b =>
    if b = 0 then (if a = 0 then .nan else if 0 < a then .posInf else .negInf)
    else .fin (a / b)
  | .fin _, .posInf => .fin 0
  | .fin _, .negInf => .fin 0
  | .posInf, .fin b => if 0 ≤ b then .posInf else .negInf
  | .negInf, .fin b => if 0 ≤ b then .negInf else .posInf
  | .posInf, .posInf => .nan
  | .posInf, .negInf => .nan
  | .negInf, .posInf => .nan
  | .negInf, .negInf => .nan

/-- JavaScript multiplication on `JSNum` (exact on finite values). -/
def jsMul : JSNum → JSNum → JSNum
  | .nan, _ => .nan
  | _, .nan => .nan
  | .fin a, .fin b => .fin (a * b)
  | .posInf, .fin b => if b = 0 then .nan else if 0 < b then .posInf else .negInf
  | .negInf, .fin b => if b = 0 then .nan else if 0 < b then .negInf else .posInf
  | .fin a, .posInf => if a = 0 then .nan else if 0 < a then .posInf else .negInf
  | .fin a, .negInf => if a = 0 then .nan else if 0 < a then .negInf else .posInf
  | .posInf, .posInf => .posInf
  | .posInf, .negInf => .negInf
  | .negInf, .posInf => .negInf
  | .negInf, .negInf => .posInf

/-- JavaScript `p > 0` (false on NaN). -/
def jsGtZero : JSNum → Bool
  | .fin q => decide (0 < q)
  | .posInf => true
  | .negInf => false
  | .nan => false

/-- JavaScript `p >= 0` (false on NaN). -/
def jsGeZero : JSNum → Bool
  | .fin q => decide (0 ≤ q)
  | .posInf => true
  | .negInf => false
  | .nan => false

/-- The ECMAScript `toFixed(2)` integer-and-fraction printer for a
nonnegative rational: `n` is the integer closest to `100 * x` (ties pick
the larger `n`), printed with exactly two decimals. -/
def fixNonneg (x : ℚ) : String :=
  let n : ℕ := (Rat.floor (100 * x + 1 / 2)).toNat
  toString (n / 100) ++ "." ++
    (if n % 100 < 10 then "0" ++ toString (n % 100) else toString (n % 100))

/-- `Number.prototype.toFixed(2)` on a finite value: a negative receiver
contributes a leading `-` and the magnitude is printed by `fixNonneg`. -/
def toFixed2 (x : ℚ) : String :=
  if x < 0 then "-" ++ fixNonneg (-x) else fixNonneg x

/-- `toFixed(2)` on a general JS number (`Infinity.toFixed(2)` is
`"Infinity"`, `NaN.toFixed(2)` is `"NaN"`). -/
def jsToFixed2 : JSNum → String
  | .fin q => toFixed2 q
  | .posInf => "Infinity"
  | .negInf => "-Infinity"
  | .nan => "NaN"

/-- `pct(y, yref)` from the CustomJS callback of `plot_with_prev_deltas`
(lines 115–120): sentinel `—` when `yref` is `null`, non-finite or zero;
otherwise `p = (y - yref) / yref * 100` rendered as
`(p > 0 ? '+' : '') + p.toFixed(2) + '%'`. -/
def pct (y : JSNum) (yref : Option JSNum) : String :=
  match yref with
  | none => "—"
  | some r =>
    if jsFinite r = false then "—"
    else if r = .fin 0 then "—"
    else
      (if jsGtZero (jsMul (jsDiv (jsSub y r) r) (.fin 100)) then "+" else "") ++
        jsToFixed2 (jsMul (jsDiv (jsSub y r) r) (.fin 100)) ++ "%"

/-- `pctDelta(y, yref)` from the CustomJS callback of
`attach_cursor_panel` (lines 74–79): identical to `pct` except the sign
test is `p >= 0`. -/
def pctDelta (y : JSNum) (yref : Option JSNum) : String :=
  match yref with
  | none => "—"
  | some r =>
    if jsFinite r = false then "—"
    else if r = .fin 0 then "—"
    else
      (if jsGeZero (jsMul (jsDiv (jsSub y r) r) (.fin 100)) then "+" else "") ++
        jsToFixed2 (jsMul (jsDiv (jsSub y r) r) (.fin 100)) ++ "%"

/-- The computational core of the mousemove callback of
`plot_with_prev_deltas` (lines 101–125): at cursor position `(x, y)` it
produces the two formatted deltas `pct(y, prevY(res))` and
`pct(y, prevY(sup))` that the host interpolates into the Div text. -/
def mousemoveDeltas (res sup : List CompiledSeg) (x y : ℚ) : String × String :=
  (pct (.fin y) ((prevY res x).map JSNum.fin),
   pct (.fin y) ((prevY sup x).map JSNum.fin))

/-- One iteration of the `prevY` loop keeping the winning record itself
instead of the pair `(best, yAt)`; used to characterise `prevY`. -/
def selStep (x : ℚ) (acc : Option CompiledSeg) (s : CompiledSeg) : Option CompiledSeg :=
  if beatsB x (acc.map (fun c => c.xEnd)) s.xEnd then some s else acc

/-- The record the `prevY` loop settles on (if any): same scan as `prevY`,
remembering the record rather than its projected value. -/
def select (x : ℚ) (src : List CompiledSeg) : Option CompiledSeg :=
  src.foldl (selStep x) none

/-- A raw price field as Python receives it: either a value `float(·)`
accepts, or a malformed one on which `float(·)` raises `ValueError`. -/
inductive PyVal where
  | num (q : ℚ)
  | bad
deriving DecidableEq

/-- A raw timestamp field: either convertible by
`pd.to_datetime(·).value // 10**6` to integer milliseconds, or malformed
so that the conversion raises. -/
inductive PyTime where
  | ts (ms : ℤ)
  | bad
deriving DecidableEq

/-- A raw trendline record before any conversion: the four fields
`x0, y0, x1, y1` of a `trendlines` dict, each possibly malformed. -/
structure RawRec where
  x0 : PyTime
  y0 : PyVal
  x1 : PyTime
  y1 : PyVal
deriving DecidableEq

/-- `_to_ms` (line 8–10 of `bokeh_cursor_deltas.py`): succeeds on a
convertible timestamp, raises (modelled as `Except.error ()`) otherwise. -/
def toMsE : PyTime → Except Unit ℤ
  | .ts ms => .ok ms
  | .bad => .error ()

/-- Python `float(·)`: succeeds on a numeric value, raises otherwise. -/
def pyFloatE : PyVal → Except Unit ℚ
  | .num q => .ok q
  | .bad => .error ()

/-- Total reading of a record whose four fields are all well formed
(fields defaulted arbitrarily otherwise; only used under that
hypothesis). -/
def stripRec (r : RawRec) : RawSeg :=
  ⟨(match r.x0 with | .ts ms => ms | .bad => 0),
   (match r.y0 with | .num q => q | .bad => 0),
   (match r.x1 with | .ts ms => ms | .bad => 0),
   (match r.y1 with | .num q => q | .bad => 0)⟩

/-- All four fields of the record convert without raising. -/
def wellFormedB (r : RawRec) : Bool :=
  (match r.x0 with | .ts _ => true | .bad => false) &&
  (match r.y0 with | .num _ => true | .bad => false) &&
  (match r.x1 with | .ts _ => true | .bad => false) &&
  (match r.y1 with | .num _ => true | .bad => false)

/-- One iteration of the `plot_with_prev_deltas` compilation loop with
Python exception behaviour (lines 42–58): `_to_ms` runs on both
timestamps and `float` on both prices before the degenerate check, and
any conversion failure propagates out of the loop. -/
def compileRecE (r : RawRec) : Except Unit (Option CompiledSeg) := do
  let x0ms ← toMsE r.x0
  let x1ms ← toMsE r.x1
  let y0 ← pyFloatE r.y0
  let y1 ← pyFloatE r.y1
  if x1ms = x0ms then return none
  else
    let m : ℚ := (y1 - y0) / ((x1ms : ℚ) - (x0ms : ℚ))
    let b : ℚ := y0 - m * (x0ms : ℚ)
    return some ⟨x0ms, y0, x1ms, y1, m, b, max x0ms x1ms⟩

/-- The whole compilation loop of `plot_with_prev_deltas` (lines 41–59)
with Python exception behaviour: an exception raised while converting any
record aborts the loop, so no list is produced at all. -/
def compileAllE : List RawRec → Except Unit (List CompiledSeg)
  | [] => .ok []
  | r :: rs => do
    let c? ← compileRecE r
    let rest ← compileAllE rs
    match c? with
    | none => return rest
    | some c => return c :: rest

lemma beatsB_true_iff (x : ℚ) (acc : Option CompiledSeg) (e : ℤ) :
    beatsB x (acc.map (fun c => c.xEnd)) e = true ↔
      (e : ℚ) ≤ x ∧ ∀ b0, acc = some b0 → b0.xEnd < e := by
  cases acc <;> simp [beatsB]

lemma selStep_isSome (x : ℚ) (s0 s : CompiledSeg) :
    ∃ s1, selStep x (some s0) s = some s1 := by
  unfold selStep
  by_cases hb : beatsB x ((some s0).map (fun c => c.xEnd)) s.xEnd = true
  · exact ⟨s, if_pos hb⟩
  · exact ⟨s0, if_neg hb⟩

lemma foldl_prevYStep_eq (x : ℚ) :
    ∀ (l : List CompiledSeg) (acc : Option CompiledSeg),
      l.foldl (prevYStep x) (acc.map (fun c => (c.xEnd, c.m * x + c.b))) =
        (l.foldl (selStep x) acc).map (fun c => (c.xEnd, c.m * x + c.b))
  | [], _ => rfl
  | s :: l, acc => by
    have hmap : (acc.map (fun c => (c.xEnd, c.m * x + c.b))).map Prod.fst =
        acc.map (fun c => c.xEnd) := by cases acc <;> rfl
    have hstep : prevYStep x (acc.map (fun c => (c.xEnd, c.m * x + c.b))) s =
        (selStep x acc s).map (fun c => (c.xEnd, c.m * x + c.b)) := by
      unfold prevYStep selStep
      rw [hmap]
      by_cases hb : beatsB x (acc.map (fun c => c.xEnd)) s.xEnd = true
      · rw [if_pos hb, if_pos hb]; rfl
      · rw [if_neg hb, if_neg hb]
    rw [List.foldl_cons, List.foldl_cons, hstep]
    exact foldl_prevYStep_eq x l (selStep x acc s)

lemma prevY_eq_select (src : List CompiledSeg) (x : ℚ) :
    prevY src x = (select x src).map (fun c => c.m * x + c.b) := by
  unfold prevY select
  have h := foldl_prevYStep_eq x src none
  simp only [Option.map_none'] at h
  rw [h, Option.map_map]
  rfl

lemma foldl_selStep_none_iff (x : ℚ) :
    ∀ (l : List CompiledSeg) (acc : Option CompiledSeg),
      l.foldl (selStep x) acc = none ↔
        acc = none ∧ ∀ s ∈ l, ¬ ((s.xEnd : ℚ) ≤ x)
  | [], acc => by simp
  | s :: l, acc => by
    rw [List.foldl_cons, foldl_selStep_none_iff x l (selStep x acc s)]
    constructor
    · rintro ⟨h1, h2⟩
      rcases acc with _ | s0
      · by_cases hb : beatsB x ((none : Option CompiledSeg).map (fun c => c.xEnd)) s.xEnd = true
        · unfold selStep at h1
          rw [if_pos hb] at h1
          exact absurd h1 (by simp)
        · refine ⟨rfl, ?_⟩
          intro s' hs'
          rw [List.mem_cons] at hs'
          rcases hs' with rfl | hs'
          · intro hq
            exact hb ((beatsB_true_iff x none s'.xEnd).2 ⟨hq, by simp⟩)
          · exact h2 s' hs'
      · rcases selStep_isSome x s0 s with ⟨s1, hs1⟩
        rw [hs1] at h1
        exact absurd h1 (by simp)
    · rintro ⟨rfl, hall⟩
      have hq : ¬ ((s.xEnd : ℚ) ≤ x) := hall s (by simp)
      have hbf : ¬ (beatsB x ((none : Option CompiledSeg).map (fun c => c.xEnd)) s.xEnd = true) := by
        rw [beatsB_true_iff]
        rintro ⟨h, _⟩
        exact hq h
      have hstep : selStep x none s = none := by
        unfold selStep
        rw [if_neg hbf]
      rw [hstep]
      exact ⟨rfl, fun s' hs' => hall s' (by simp [hs'])⟩

lemma foldl_selStep_some_spec (x : ℚ) :
    ∀ (l : List CompiledSeg) (acc : Option CompiledSeg) (s : CompiledSeg),
      l.foldl (selStep x) acc = some s →
      ((acc = some s ∧ ∀ s' ∈ l, (s'.xEnd : ℚ) ≤ x → s'.xEnd ≤ s.xEnd) ∨
        (∃ l1 l2, l = l1 ++ s :: l2 ∧ (s.xEnd : ℚ) ≤ x ∧
          (∀ b0, acc = some b0 → b0.xEnd < s.xEnd) ∧
          (∀ s' ∈ l1, (s'.xEnd : ℚ) ≤ x → s'.xEnd < s.xEnd) ∧
          (∀ s' ∈ l, (s'.xEnd : ℚ) ≤ x → s'.xEnd ≤ s.xEnd)))
  | [], acc, s => fun h => by
    simp only [List.foldl_nil] at h
    exact Or.inl ⟨h, by simp⟩
  | hd :: l, acc, s => fun h => by
    rw [List.foldl_cons] at h
    have IH := foldl_selStep_some_spec x l (selStep x acc hd) s h
    by_cases hb : beatsB x (acc.map (fun c => c.xEnd)) hd.xEnd = true
    · have hstep : selStep x acc hd = some hd := by
        unfold selStep
        rw [if_pos hb]
      obtain ⟨hq, hlt⟩ := (beatsB_true_iff x acc hd.xEnd).1 hb
      rcases IH with ⟨heq, hmax⟩ | ⟨l1, l2, hl, hqs, haccc, hl1, hmaxl⟩
      · -- the head survived to the end: s = hd
        rw [hstep] at heq
        have hhd : hd = s := Option.some.inj heq
        subst hhd
        refine Or.inr ⟨[], l, rfl, hq, hlt, by simp, ?_⟩
        intro s' hs'
        rw [List.mem_cons] at hs'
        rcases hs' with rfl | hs'
        · exact fun _ => le_refl _
        · exact hmax s' hs'
      · -- a later element won; the head was strictly beaten
        have hdlt : hd.xEnd < s.xEnd := haccc hd hstep
        refine Or.inr ⟨hd :: l1, l2, by rw [hl]; rfl, hqs, ?_, ?_, ?_⟩
        · intro b0 hb0
          exact lt_trans (hlt b0 hb0) hdlt
        · intro s' hs'
          rw [List.mem_cons] at hs'
          rcases hs' with rfl | hs'
          · exact fun _ => hdlt
          · exact hl1 s' hs'
        · intro s' hs'
          rw [List.mem_cons] at hs'
          rcases hs' with rfl | hs'
          · exact fun _ => le_of_lt hdlt
          · exact hmaxl s' hs'
    · have hstep : selStep x acc hd = acc := by
        unfold selStep
        rw [if_neg hb]
      rw [hstep] at IH
      have hbnot := hb
      rw [beatsB_true_iff] at hbnot
      push_neg at hbnot
      rcases IH with ⟨heq, hmax⟩ | ⟨l1, l2, hl, hqs, haccc, hl1, hmaxl⟩
      · -- the accumulator survived the whole list
        refine Or.inl ⟨heq, ?_⟩
        intro s' hs'
        rw [List.mem_cons] at hs'
        rcases hs' with rfl | hs'
        · intro hq'
          obtain ⟨b0, hb0, hble⟩ := hbnot hq'
          rw [heq] at hb0
          obtain rfl : s = b0 := Option.some.inj hb0
          exact hble
        · exact hmax s' hs'
      · -- a later element won and also dominates the unqualifying head
        refine Or.inr ⟨hd :: l1, l2, by rw [hl]; rfl, hqs, haccc, ?_, ?_⟩
        · intro s' hs'
          rw [List.mem_cons] at hs'
          rcases hs' with rfl | hs'
          · intro hq'
            obtain ⟨b0, hb0, hble⟩ := hbnot hq'
            exact lt_of_le_of_lt hble (haccc b0 hb0)
          · exact hl1 s' hs'
        · intro s' hs'
          rw [List.mem_cons] at hs'
          rcases hs' with rfl | hs'
          · intro hq'
            obtain ⟨b0, hb0, hble⟩ := hbnot hq'
            exact le_of_lt (lt_of_le_of_lt hble (haccc b0 hb0))
          · exact hmaxl s' hs'

lemma select_none_iff (x : ℚ) (src : List CompiledSeg) :
    select x src = none ↔ ∀ s ∈ src, ¬ ((s.xEnd : ℚ) ≤ x) := by
  unfold select
  rw [foldl_selStep_none_iff]
  simp

lemma select_some_spec (x : ℚ) (src : List CompiledSeg) (s : CompiledSeg)
    (h : select x src = some s) :
    ∃ l1 l2, src = l1 ++ s :: l2 ∧ (s.xEnd : ℚ) ≤ x ∧
      (∀ s' ∈ l1, (s'.xEnd : ℚ) ≤ x → s'.xEnd < s.xEnd) ∧
      (∀ s' ∈ src, (s'.xEnd : ℚ) ≤ x → s'.xEnd ≤ s.xEnd) := by
  rcases foldl_selStep_some_spec x src none s h with ⟨heq, _⟩ | ⟨l1, l2, hl, hq, _, hl1, hmax⟩
  · exact absurd heq (by simp)
  · exact ⟨l1, l2, hl, hq, hl1, hmax⟩

/-- C1: for every index and query time `t`, `prevY` (the `mostRecentAt`
operation) returns `null` exactly when no compiled record has
`x_end <= t` (in particular on an empty index), and any returned value is
the projection `m * t + b` of a record of the index whose `x_end` is `<= t`
and maximal among such records; the boundary is inclusive (`x >= x_end`),
and `yPrevAtDate` computes the same function. -/
theorem mostRecentAt_spec (src : List CompiledSeg) (t : ℚ) :
    (prevY src t = none ↔ ∀ s ∈ src, ¬ ((s.xEnd : ℚ) ≤ t)) ∧
    (∀ q, prevY src t = some q →
      ∃ s ∈ src, (s.xEnd : ℚ) ≤ t ∧ q = s.m * t + s.b ∧
        ∀ s' ∈ src, (s'.xEnd : ℚ) ≤ t → s'.xEnd ≤ s.xEnd) ∧
    yPrevAtDate src t = prevY src t := by
  refine ⟨?_, ?_, rfl⟩
  · rw [prevY_eq_select, Option.map_eq_none', select_none_iff]
  · intro q hq
    rw [prevY_eq_select] at hq
    rcases hmem : select t src with _ | s
    · rw [hmem] at hq
      simp at hq
    · rw [hmem] at hq
      simp only [Option.map_some', Option.some.injEq] at hq
      obtain ⟨l1, l2, hl, hqual, _, hmax⟩ := select_some_spec t src s hmem
      refine ⟨s, ?_, hqual, hq.symm, hmax⟩
      rw [hl]
      exact List.mem_append_right l1 (List.mem_cons_self s l2)

unseal Rat.mul Rat.add Rat.inv Rat.sub in
/-- C1 witness: a concrete query against a one-segment index. -/
theorem mostRecentAt_spec_witness :
    ∃ s ∈ mkSrc [⟨0, 50, 100, 50⟩], (s.xEnd : ℚ) ≤ 105 ∧ (50 : ℚ) = s.m * 105 + s.b ∧
      ∀ s' ∈ mkSrc [⟨0, 50, 100, 50⟩], (s'.xEnd : ℚ) ≤ 105 → s'.xEnd ≤ s.xEnd :=
  (mostRecentAt_spec (mkSrc [⟨0, 50, 100, 50⟩]) 105).2.1 50 (by decide)

/-- C8: the result of `prevY` is governed by a fixed deterministic rule:
either no record qualifies (`null`), or the result is the projection at
the first record, in construction order, among those achieving the
maximal `x_end <= t` (the strict comparison `x_end > best` never lets a
later tie replace an earlier winner); `yPrevAtDate` agrees, so repeated
queries of the same index at the same time return the same value. -/
theorem prevY_tie_break_first (src : List CompiledSeg) (t : ℚ) :
    prevY src t = none ∨
      ∃ s l1 l2, src = l1 ++ s :: l2 ∧ (s.xEnd : ℚ) ≤ t ∧
        (∀ s' ∈ l1, (s'.xEnd : ℚ) ≤ t → s'.xEnd < s.xEnd) ∧
        (∀ s' ∈ src, (s'.xEnd : ℚ) ≤ t → s'.xEnd ≤ s.xEnd) ∧
        prevY src t = some (s.m * t + s.b) ∧
        yPrevAtDate src t = some (s.m * t + s.b) := by
  rcases hsel : select t src with _ | s
  · left
    rw [prevY_eq_select, hsel]
    rfl
  · right
    obtain ⟨l1, l2, hl, hq, hfirst, hmax⟩ := select_some_spec t src s hsel
    have hp : prevY src t = some (s.m * t + s.b) := by
      rw [prevY_eq_select, hsel]
      rfl
    exact ⟨s, l1, l2, hl, hq, hfirst, hmax, hp, hp⟩

unseal Rat.mul Rat.add Rat.inv Rat.sub in
/-- C8 witness: the rule applied to a two-segment tie. -/
theorem prevY_tie_break_first_witness :
    prevY (mkSrc [⟨0, 10, 100, 20⟩, ⟨0, 30, 100, 40⟩]) 100 = none ∨
      ∃ s l1 l2, mkSrc [⟨0, 10, 100, 20⟩, ⟨0, 30, 100, 40⟩] = l1 ++ s :: l2 ∧
        (s.xEnd : ℚ) ≤ 100 ∧
        (∀ s' ∈ l1, (s'.xEnd : ℚ) ≤ 100 → s'.xEnd < s.xEnd) ∧
        (∀ s' ∈ mkSrc [⟨0, 10, 100, 20⟩, ⟨0, 30, 100, 40⟩],
          (s'.xEnd : ℚ) ≤ 100 → s'.xEnd ≤ s.xEnd) ∧
        prevY (mkSrc [⟨0, 10, 100, 20⟩, ⟨0, 30, 100, 40⟩]) 100 = some (s.m * 100 + s.b) ∧
        yPrevAtDate (mkSrc [⟨0, 10, 100, 20⟩, ⟨0, 30, 100, 40⟩]) 100 = some (s.m * 100 + s.b) :=
  prevY_tie_break_first (mkSrc [⟨0, 10, 100, 20⟩, ⟨0, 30, 100, 40⟩]) 100

lemma compileSeg_eq_some (r : RawSeg) (c : CompiledSeg) (h : compileSeg r = some c) :
    r.x1ms ≠ r.x0ms ∧ c.x0ms = r.x0ms ∧ c.y0 = r.y0 ∧ c.x1ms = r.x1ms ∧ c.y1 = r.y1 ∧
      c.m = (r.y1 - r.y0) / ((r.x1ms : ℚ) - (r.x0ms : ℚ)) ∧
      c.b = r.y0 - c.m * (r.x0ms : ℚ) ∧ c.xEnd = max r.x0ms r.x1ms := by
  unfold compileSeg at h
  by_cases hd : r.x1ms = r.x0ms
  · rw [if_pos hd] at h
    exact absurd h (by simp)
  · rw [if_neg hd] at h
    simp only [Option.some.injEq] at h
    subst h
    exact ⟨hd, rfl, rfl, rfl, rfl, rfl, rfl, rfl⟩

lemma compileSeg_eq_none_iff (r : RawSeg) : compileSeg r = none ↔ r.x1ms = r.x0ms := by
  unfold compileSeg
  by_cases hd : r.x1ms = r.x0ms <;> simp [hd]

/-- C5: compilation silently drops exactly the degenerate records (both
anchors on the same millisecond): the output is never longer than the
input, every non-degenerate input record compiles into a record of the
output, every degenerate one compiles to nothing, and every output record
is non-degenerate and comes from an input record. -/
theorem mkSrc_drops_exactly_degenerate (recs : List RawSeg) :
    (mkSrc recs).length ≤ recs.length ∧
    (∀ r ∈ recs, r.x1ms ≠ r.x0ms → ∃ c ∈ mkSrc recs, compileSeg r = some c) ∧
    (∀ r ∈ recs, r.x1ms = r.x0ms → compileSeg r = none) ∧
    (∀ c ∈ mkSrc recs, c.x1ms ≠ c.x0ms ∧ ∃ r ∈ recs, compileSeg r = some c) := by
  refine ⟨List.length_filterMap_le _ _, ?_, ?_, ?_⟩
  · intro r hr hnd
    rcases hc : compileSeg r with _ | c
    · rw [compileSeg_eq_none_iff] at hc
      exact absurd hc hnd
    · exact ⟨c, List.mem_filterMap.2 ⟨r, hr, hc⟩, rfl⟩
  · intro r _ hd
    exact (compileSeg_eq_none_iff r).2 hd
  · intro c hc
    obtain ⟨r, hr, hcomp⟩ := List.mem_filterMap.1 hc
    obtain ⟨hnd, h0, _, h1, _, _, _, _⟩ := compileSeg_eq_some r c hcomp
    refine ⟨?_, r, hr, hcomp⟩
    rw [h0, h1]
    exact hnd

unseal Rat.mul Rat.add Rat.inv Rat.sub in
/-- C5 witness: a degenerate and a non-degenerate record. -/
theorem mkSrc_drops_exactly_degenerate_witness :
    compileSeg ⟨5, 1, 5, 9⟩ = none ∧
      ∃ c ∈ mkSrc [⟨5, 1, 5, 9⟩, ⟨0, 1, 10, 2⟩], compileSeg ⟨0, 1, 10, 2⟩ = some c :=
  ⟨(mkSrc_drops_exactly_degenerate [⟨5, 1, 5, 9⟩, ⟨0, 1, 10, 2⟩]).2.2.1
      ⟨5, 1, 5, 9⟩ (by decide) rfl,
    (mkSrc_drops_exactly_degenerate [⟨5, 1, 5, 9⟩, ⟨0, 1, 10, 2⟩]).2.1
      ⟨0, 1, 10, 2⟩ (by decide) (by decide)⟩

/-- C7: for every compiled record, the projection `m * t + b` evaluated at
the record's own start and end millisecond times reproduces the two anchor
prices exactly (rational arithmetic). -/
theorem projection_reproduces_anchors (r : RawSeg) (c : CompiledSeg)
    (h : compileSeg r = some c) :
    c.m * (c.x0ms : ℚ) + c.b = c.y0 ∧ c.m * (c.x1ms : ℚ) + c.b = c.y1 := by
  obtain ⟨hnd, h0, hy0, h1, hy1, hm, hb, _⟩ := compileSeg_eq_some r c h
  have hne : ((r.x1ms : ℚ) - (r.x0ms : ℚ)) ≠ 0 := by
    rw [sub_ne_zero]
    exact_mod_cast hnd
  constructor
  · rw [h0, hy0, hb]
    ring
  · rw [h1, hy1, hb, hm]
    field_simp
    ring

unseal Rat.mul Rat.add Rat.inv Rat.sub in
/-- C7 witness: the anchors of a concrete compiled record. -/
theorem projection_reproduces_anchors_witness :
    (⟨0, 1, 10, 2, 1/10, 1, 10⟩ : CompiledSeg).m *
        ((⟨0, 1, 10, 2, 1/10, 1, 10⟩ : CompiledSeg).x0ms : ℚ) +
        (⟨0, 1, 10, 2, 1/10, 1, 10⟩ : CompiledSeg).b =
      (⟨0, 1, 10, 2, 1/10, 1, 10⟩ : CompiledSeg).y0 ∧
    (⟨0, 1, 10, 2, 1/10, 1, 10⟩ : CompiledSeg).m *
        ((⟨0, 1, 10, 2, 1/10, 1, 10⟩ : CompiledSeg).x1ms : ℚ) +
        (⟨0, 1, 10, 2, 1/10, 1, 10⟩ : CompiledSeg).b =
      (⟨0, 1, 10, 2, 1/10, 1, 10⟩ : CompiledSeg).y1 :=
  projection_reproduces_anchors ⟨0, 1, 10, 2⟩ ⟨0, 1, 10, 2, 1/10, 1, 10⟩ (by decide)

/-- C10: the selection key of every compiled record is
`x_end = max(x0ms, x1ms)`; in particular when the anchors arrive in
reverse temporal order (`x1ms < x0ms`) the record is keyed by the
chronologically later endpoint `x0ms`, and the anchors are stored
unchanged. -/
theorem xEnd_is_later_endpoint (r : RawSeg) (c : CompiledSeg) (h : compileSeg r = some c) :
    c.xEnd = max r.x0ms r.x1ms ∧ (r.x1ms < r.x0ms → c.xEnd = r.x0ms) ∧
      c.x0ms = r.x0ms ∧ c.x1ms = r.x1ms := by
  obtain ⟨_, h0, _, h1, _, _, _, hx⟩ := compileSeg_eq_some r c h
  refine ⟨hx, ?_, h0, h1⟩
  intro hrev
  rw [hx, max_eq_left (le_of_lt hrev)]

unseal Rat.mul Rat.add Rat.inv Rat.sub in
/-- C10 witness: a record supplied with its anchors in reverse temporal
order. -/
theorem xEnd_is_later_endpoint_witness :
    (⟨100, 7, 0, 5, 1/50, 5, 100⟩ : CompiledSeg).xEnd =
        max (⟨100, 7, 0, 5⟩ : RawSeg).x0ms (⟨100, 7, 0, 5⟩ : RawSeg).x1ms ∧
      ((⟨100, 7, 0, 5⟩ : RawSeg).x1ms < (⟨100, 7, 0, 5⟩ : RawSeg).x0ms →
        (⟨100, 7, 0, 5, 1/50, 5, 100⟩ : CompiledSeg).xEnd = (⟨100, 7, 0, 5⟩ : RawSeg).x0ms) ∧
      (⟨100, 7, 0, 5, 1/50, 5, 100⟩ : CompiledSeg).x0ms = (⟨100, 7, 0, 5⟩ : RawSeg).x0ms ∧
      (⟨100, 7, 0, 5, 1/50, 5, 100⟩ : CompiledSeg).x1ms = (⟨100, 7, 0, 5⟩ : RawSeg).x1ms :=
  xEnd_is_later_endpoint ⟨100, 7, 0, 5⟩ ⟨100, 7, 0, 5, 1/50, 5, 100⟩ (by decide)

lemma pct_fin_eq (y r : ℚ) (hr : r ≠ 0) :
    pct (.fin y) (some (.fin r)) =
      (if 0 < (y - r) / r * 100 then "+" else "") ++ toFixed2 ((y - r) / r * 100) ++ "%" := by
  simp [pct, jsFinite, jsSub, jsDiv, jsMul, jsGtZero, jsToFixed2, hr]

lemma pctDelta_fin_eq (y r : ℚ) (hr : r ≠ 0) :
    pctDelta (.fin y) (some (.fin r)) =
      (if 0 ≤ (y - r) / r * 100 then "+" else "") ++ toFixed2 ((y - r) / r * 100) ++ "%" := by
  simp [pctDelta, jsFinite, jsSub, jsDiv, jsMul, jsGeZero, jsToFixed2, hr]

unseal Rat.mul Rat.add Rat.inv Rat.sub in
/-- C2: the delta formatters compute `(observed - reference) / reference *
100` and render it to two decimals with a percent sign for every finite
observed value and finite nonzero reference; in particular `110` against
`100` gives `"+10.00%"`, `90` against `100` gives `"-10.00%"`, and a zero
reference always yields the `—` sentinel, in both implementations. -/
theorem deltaCalc_values :
    pct (.fin 110) (some (.fin 100)) = "+10.00%" ∧
    pctDelta (.fin 110) (some (.fin 100)) = "+10.00%" ∧
    pct (.fin 90) (some (.fin 100)) = "-10.00%" ∧
    pctDelta (.fin 90) (some (.fin 100)) = "-10.00%" ∧
    (∀ y : ℚ, pct (.fin y) (some (.fin 0)) = "—" ∧ pctDelta (.fin y) (some (.fin 0)) = "—") ∧
    (∀ y r : ℚ, r ≠ 0 →
      pct (.fin y) (some (.fin r)) =
        (if 0 < (y - r) / r * 100 then "+" else "") ++ toFixed2 ((y - r) / r * 100) ++ "%" ∧
      pctDelta (.fin y) (some (.fin r)) =
        (if 0 ≤ (y - r) / r * 100 then "+" else "") ++ toFixed2 ((y - r) / r * 100) ++ "%") := by
  refine ⟨?_, ?_, ?_, ?_, ?_, ?_⟩
  · decide
  · decide
  · decide
  · decide
  · intro y
    constructor <;> simp [pct, pctDelta, jsFinite]
  · intro y r hr
    exact ⟨pct_fin_eq y r hr, pctDelta_fin_eq y r hr⟩

/-- C2 witness: the general formatting clause instantiated at a fresh
concrete input. -/
theorem deltaCalc_values_witness :
    pct (.fin 150) (some (.fin 100)) =
      (if 0 < ((150 : ℚ) - 100) / 100 * 100 then "+" else "") ++
        toFixed2 (((150 : ℚ) - 100) / 100 * 100) ++ "%" ∧
    pctDelta (.fin 150) (some (.fin 100)) =
      (if 0 ≤ ((150 : ℚ) - 100) / 100 * 100 then "+" else "") ++
        toFixed2 (((150 : ℚ) - 100) / 100 * 100) ++ "%" :=
  deltaCalc_values.2.2.2.2.2 150 100 (by norm_num)

unseal Rat.mul Rat.add Rat.inv Rat.sub in
/-- C3 counterexample: a zero percentage is rendered by `pct` (the
`bokeh_cursor_deltas.py` formatter) without any leading sign, `"0.00%"`,
not `"+0.00%"` as the claim requires of both implementations. -/
theorem pct_zero_sign_cex :
    pct (.fin 100) (some (.fin 100)) = "0.00%" ∧
      pct (.fin 100) (some (.fin 100)) ≠ "+0.00%" ∧
      pctDelta (.fin 100) (some (.fin 100)) = "+0.00%" := by
  refine ⟨?_, ?_, ?_⟩ <;> decide

unseal Rat.mul Rat.add Rat.inv Rat.sub in
/-- C3 amended: in both implementations a strictly positive percentage is
rendered with a leading `+` and a negative one with a leading `-`; a
percentage of exactly zero is rendered with a leading `+` only by
`pctDelta` (`p >= 0` test), while `pct` (`p > 0` test) renders it with no
sign at all, as `"0.00%"`. -/
theorem pct_sign_behavior (y r : ℚ) (hr : r ≠ 0) :
    (0 < (y - r) / r * 100 → ∃ u, pct (.fin y) (some (.fin r)) = "+" ++ u) ∧
    ((y - r) / r * 100 < 0 → ∃ u, pct (.fin y) (some (.fin r)) = "-" ++ u) ∧
    ((y - r) / r * 100 = 0 → pct (.fin y) (some (.fin r)) = "0.00%") ∧
    (0 ≤ (y - r) / r * 100 → ∃ u, pctDelta (.fin y) (some (.fin r)) = "+" ++ u) ∧
    ((y - r) / r * 100 < 0 → ∃ u, pctDelta (.fin y) (some (.fin r)) = "-" ++ u) := by
  refine ⟨?_, ?_, ?_, ?_, ?_⟩
  · intro hp
    refine ⟨toFixed2 ((y - r) / r * 100) ++ "%", ?_⟩
    rw [pct_fin_eq y r hr, if_pos hp, String.append_assoc]
  · intro hp
    refine ⟨fixNonneg (-((y - r) / r * 100)) ++ "%", ?_⟩
    rw [pct_fin_eq y r hr, if_neg (not_lt.2 (le_of_lt hp))]
    unfold toFixed2
    rw [if_pos hp]
    simp [String.append_assoc]
  · intro hp
    rw [pct_fin_eq y r hr, hp]
    decide
  · intro hp
    refine ⟨toFixed2 ((y - r) / r * 100) ++ "%", ?_⟩
    rw [pctDelta_fin_eq y r hr, if_pos hp, String.append_assoc]
  · intro hp
    refine ⟨fixNonneg (-((y - r) / r * 100)) ++ "%", ?_⟩
    rw [pctDelta_fin_eq y r hr, if_neg (not_le.2 hp)]
    unfold toFixed2
    rw [if_pos hp]
    simp [String.append_assoc]

/-- C3 amended witness: the sign rule at a concrete negative percentage. -/
theorem pct_sign_behavior_witness :
    ((90 : ℚ) - 100) / 100 * 100 < 0 ∧
      ∃ u, pct (.fin 90) (some (.fin 100)) = "-" ++ u :=
  ⟨by norm_num, (pct_sign_behavior 90 100 (by norm_num)).2.1 (by norm_num)⟩

/-- C4: whenever the reference is `null` (no match), non-finite, or
exactly zero, both delta formatters return the `—` sentinel and never a
computed number, for every observed value; the model functions are total,
mirroring that the JS code cannot throw. -/
theorem pct_degenerate_guard (y : JSNum) (yref : Option JSNum)
    (h : yref = none ∨ (∃ v, yref = some v ∧ jsFinite v = false) ∨ yref = some (.fin 0)) :
    pct y yref = "—" ∧ pctDelta y yref = "—" := by
  rcases h with rfl | ⟨v, rfl, hv⟩ | rfl
  · exact ⟨rfl, rfl⟩
  · constructor <;> simp [pct, pctDelta, hv]
  · constructor <;> simp [pct, pctDelta, jsFinite]

/-- C4 witness: the NaN reference case. -/
theorem pct_degenerate_guard_witness :
    pct (.fin 5) (some .nan) = "—" ∧ pctDelta (.fin 5) (some .nan) = "—" :=
  pct_degenerate_guard (.fin 5) (some .nan) (Or.inr (Or.inl ⟨.nan, rfl, rfl⟩))

unseal Rat.mul Rat.add Rat.inv Rat.sub in
/-- C6: the end-to-end scenario, with unclamped extrapolation past both
segments' endpoints: a flat resistance segment ending at `t = 100` ms that
projects to `50` and a flat support segment ending at `t = 90` ms that
projects to `40`, queried at `t = 105` ms (later than both endpoints) with
observed value `52`, produce the deltas `"+4.00%"` and `"+30.00%"`. -/
theorem scenario_extrapolation :
    prevY (mkSrc [⟨0, 50, 100, 50⟩]) 105 = some 50 ∧
    prevY (mkSrc [⟨0, 40, 90, 40⟩]) 105 = some 40 ∧
    mousemoveDeltas (mkSrc [⟨0, 50, 100, 50⟩]) (mkSrc [⟨0, 40, 90, 40⟩]) 105 52 =
      ("+4.00%", "+30.00%") ∧
    (∀ c ∈ mkSrc [⟨0, 50, 100, 50⟩], (c.xEnd : ℚ) < 105) ∧
    (∀ c ∈ mkSrc [⟨0, 40, 90, 40⟩], (c.xEnd : ℚ) < 105) := by
  refine ⟨?_, ?_, ?_, ?_, ?_⟩ <;> decide

lemma exceptBind_ok {α β : Type} (a : α) (f : α → Except Unit β) :
    (Except.ok a >>= f) = f a := rfl

lemma exceptBind_error {α β : Type} (f : α → Except Unit β) :
    ((Except.error () : Except Unit α) >>= f) = Except.error () := rfl

lemma exceptPure {α : Type} (a : α) : (pure a : Except Unit α) = Except.ok a := rfl

lemma compileRecE_ok_of_wf (r : RawRec) (h : wellFormedB r = true) :
    compileRecE r = .ok (compileSeg (stripRec r)) := by
  rcases r with ⟨x0, y0, x1, y1⟩
  cases x0 with
  | bad => simp [wellFormedB] at h
  | ts a =>
    cases y0 with
    | bad => simp [wellFormedB] at h
    | num b =>
      cases x1 with
      | bad => simp [wellFormedB] at h
      | ts c =>
        cases y1 with
        | bad => simp [wellFormedB] at h
        | num d =>
          by_cases hd : c = a <;>
            simp [compileRecE, compileSeg, toMsE, pyFloatE, stripRec, hd,
              exceptBind_ok, exceptPure]

lemma compileRecE_error_of_bad (r : RawRec) (h : wellFormedB r = false) :
    compileRecE r = .error () := by
  rcases r with ⟨x0, y0, x1, y1⟩
  cases x0 <;> cases y0 <;> cases x1 <;> cases y1 <;>
    first
      | rfl
      | simp [wellFormedB] at h

/-- C9 counterexample: a malformed price in the middle record makes the
whole compilation raise (`float(...)` propagates `ValueError`), so no
compiled list is produced at all — the well-formed records before and
after the offender are not retained, contradicting the claim that only
the offending segment is excluded while the others are processed. -/
theorem compileAll_aborts_on_malformed_cex :
    compileAllE [⟨.ts 0, .num 1, .ts 10, .num 2⟩, ⟨.ts 0, .bad, .ts 5, .num 3⟩,
        ⟨.ts 20, .num 4, .ts 30, .num 5⟩] = .error () ∧
      ∀ l : List CompiledSeg,
        compileAllE [⟨.ts 0, .num 1, .ts 10, .num 2⟩, ⟨.ts 0, .bad, .ts 5, .num 3⟩,
          ⟨.ts 20, .num 4, .ts 30, .num 5⟩] ≠ .ok l := by
  have heq : compileAllE [⟨.ts 0, .num 1, .ts 10, .num 2⟩, ⟨.ts 0, .bad, .ts 5, .num 3⟩,
      ⟨.ts 20, .num 4, .ts 30, .num 5⟩] = .error () := by rfl
  refine ⟨heq, ?_⟩
  intro l hl
  rw [heq] at hl
  exact Except.noConfusion hl

/-- C9 amended: a record with any malformed anchor field raises an
exception that aborts compilation of the entire sequence (no list is
produced); only when every record is well formed does compilation succeed,
and then it equals the pure compilation `mkSrc` of the converted records
(degenerate records being the only ones skipped). -/
theorem compileAll_malformed_behavior (recs : List RawRec) :
    ((∀ r ∈ recs, wellFormedB r = true) →
      compileAllE recs = .ok (mkSrc (recs.map stripRec))) ∧
    ((∃ r ∈ recs, wellFormedB r = false) → compileAllE recs = .error ()) := by
  induction recs with
  | nil =>
    constructor
    · intro _
      rfl
    · rintro ⟨r, hr, _⟩
      cases hr
  | cons r rs IH =>
    constructor
    · intro h
      have hr := compileRecE_ok_of_wf r (h r (List.mem_cons_self r rs))
      have hrs := IH.1 (fun r' hr' => h r' (List.mem_cons_of_mem r hr'))
      rcases hc : compileSeg (stripRec r) with _ | c <;>
        simp [compileAllE, hr, hrs, hc, mkSrc, List.map_cons, List.filterMap_cons,
          List.filterMap_map, Function.comp, exceptBind_ok, exceptPure]
    · rintro ⟨r', hr', hbad⟩
      rw [List.mem_cons] at hr'
      rcases hr' with rfl | hr'
      · simp [compileAllE, compileRecE_error_of_bad r' hbad, exceptBind_error]
      · have hrs := IH.2 ⟨r', hr', hbad⟩
        rcases hrec : compileRecE r with e | c?
        · cases e
          simp [compileAllE, hrec, exceptBind_error]
        · simp [compileAllE, hrec, hrs, exceptBind_ok, exceptBind_error]

/-- C9 amended witness: an all-well-formed list compiles to the pure
result, and a list containing a malformed record raises. -/
theorem compileAll_malformed_behavior_witness :
    compileAllE [⟨.ts 0, .num 1, .ts 10, .num 2⟩] =
      .ok (mkSrc (List.map stripRec [⟨.ts 0, .num 1, .ts 10, .num 2⟩])) ∧
    compileAllE [⟨.bad, .num 1, .ts 10, .num 2⟩] = .error () :=
  ⟨(compileAll_malformed_behavior [⟨.ts 0, .num 1, .ts 10, .num 2⟩]).1 (by decide),
    (compileAll_malformed_behavior [⟨.bad, .num 1, .ts 10, .num 2⟩]).2
      ⟨⟨.bad, .num 1, .ts 10, .num 2⟩, by simp, rfl⟩⟩

end PyTrendline
